import Mathlib

/-!
Verification of the interrupt-delivery core of the Asterinas OSTD:
the IOMMU interrupt remapping table (`ostd/src/arch/x86/iommu/interrupt_remapping/table.rs`)
and the x2APIC local controller (`ostd/src/arch/x86/kernel/apic/x2apic.rs`).

The Rust code is shallowly embedded: the table's backing segment is a byte
memory `Nat → Nat`, `u128`/`u64` values are `Nat` with explicit truncation
where the source casts, and MSR traffic is recorded as an explicit access
trace driven by an environment oracle.
-/

/-! ### Byte-addressed memory, modelling `Segment` reader/writer accesses -/

/-- Point update of a byte memory. -/
def updByte (m : Nat → Nat) (a v : Nat) : Nat → Nat :=
  fun x => if x = a then v else m x

/-- Write the `n` low-order bytes of `v` at offsets `off, off+1, …, off+n-1`
(little endian), as `VmWriter::write_once` does for a plain-old-data value. -/
def writeBytes : (Nat → Nat) → Nat → Nat → Nat → (Nat → Nat)
  | m, _, _, 0 => m
  | m, off, v, n + 1 => writeBytes (updByte m off (v % 256)) (off + 1) (v / 256) n

/-- Read `n` bytes at `off` as a little-endian number. -/
def readBytes : (Nat → Nat) → Nat → Nat → Nat
  | _, _, 0 => 0
  | m, off, n + 1 => m off + 256 * readBytes m (off + 1) n

/-- A single 64-bit `write_once` at byte offset `off`. -/
def writeOnceU64 (m : Nat → Nat) (off v : Nat) : Nat → Nat :=
  writeBytes m off v 8

/-- Read back a 64-bit little-endian value at byte offset `off`. -/
def readU64 (m : Nat → Nat) (off : Nat) : Nat :=
  readBytes m off 8

theorem writeBytes_frame (n : Nat) :
    ∀ (m : Nat → Nat) (off v a : Nat), a < off ∨ off + n ≤ a →
      writeBytes m off v n a = m a := by
  induction n with
  | zero => intro m off v a _; rfl
  | succ n ih =>
    intro m off v a h
    show writeBytes (updByte m off (v % 256)) (off + 1) (v / 256) n a = m a
    rw [ih (updByte m off (v % 256)) (off + 1) (v / 256) a (by omega)]
    unfold updByte
    have hne : a ≠ off := by omega
    simp [hne]

theorem readBytes_ext (n : Nat) :
    ∀ (m m₂ : Nat → Nat) (off : Nat),
      (∀ a, off ≤ a → a < off + n → m a = m₂ a) →
      readBytes m off n = readBytes m₂ off n := by
  induction n with
  | zero => intro m m₂ off _; rfl
  | succ n ih =>
    intro m m₂ off h
    show m off + 256 * readBytes m (off + 1) n
        = m₂ off + 256 * readBytes m₂ (off + 1) n
    rw [h off (Nat.le_refl _) (by omega), ih m m₂ (off + 1) (fun a h1 h2 => h a (by omega) (by omega))]

theorem readBytes_writeBytes (n : Nat) :
    ∀ (m : Nat → Nat) (off v : Nat),
      readBytes (writeBytes m off v n) off n = v % 256 ^ n := by
  induction n with
  | zero => intro m off v; simp [readBytes, Nat.mod_one]
  | succ n ih =>
    intro m off v
    show readBytes (writeBytes (updByte m off (v % 256)) (off + 1) (v / 256) n) off (n + 1)
        = v % 256 ^ (n + 1)
    have hbyte :
        writeBytes (updByte m off (v % 256)) (off + 1) (v / 256) n off = v % 256 := by
      rw [writeBytes_frame n _ _ _ _ (Or.inl (by omega))]
      simp [updByte]
    show writeBytes (updByte m off (v % 256)) (off + 1) (v / 256) n off
        + 256 * readBytes (writeBytes (updByte m off (v % 256)) (off + 1) (v / 256) n) (off + 1) n
        = v % 256 ^ (n + 1)
    rw [hbyte, ih]
    have h256 : (256 : Nat) ^ (n + 1) = 256 * 256 ^ n := by
      rw [pow_succ, Nat.mul_comm]
    rw [h256, Nat.mod_mul]

theorem readU64_writeOnceU64 (m : Nat → Nat) (off v : Nat) :
    readU64 (writeOnceU64 m off v) off = v % 2 ^ 64 := by
  have h : (256 : Nat) ^ 8 = 2 ^ 64 := by norm_num
  rw [readU64, writeOnceU64, readBytes_writeBytes, h]

theorem readU64_frame (m : Nat → Nat) (off off₂ v : Nat)
    (h : off₂ + 8 ≤ off ∨ off + 8 ≤ off₂) :
    readU64 (writeOnceU64 m off₂ v) off = readU64 m off := by
  apply readBytes_ext
  intro a h1 h2
  exact writeBytes_frame 8 m off₂ v a (by omega)

/-! ### The IRTE codec (`IrtEntry` and its bit fields) -/

/-- `SourceValidationType` from `table.rs`: discriminants 0b00..0b11. -/
inductive SourceValidationType
  | Disable
  | RequesterId
  | RequesterBus
  | Reserved
deriving DecidableEq

/-- The `TryFromInt`-derived checked conversion for `SourceValidationType`. -/
def SourceValidationType.tryFromInt : Nat → Option SourceValidationType
  | 0 => some .Disable
  | 1 => some .RequesterId
  | 2 => some .RequesterBus
  | 3 => some .Reserved
  | _ => none

/-- `SourceIdQualifier` from `table.rs`: discriminants 0b00..0b11. -/
inductive SourceIdQualifier
  | All
  | IgnoreThirdLeast
  | IgnoreSecondThirdLeast
  | IgnoreLeastThree
deriving DecidableEq

/-- The `TryFromInt`-derived checked conversion for `SourceIdQualifier`. -/
def SourceIdQualifier.tryFromInt : Nat → Option SourceIdQualifier
  | 0 => some .All
  | 1 => some .IgnoreThirdLeast
  | 2 => some .IgnoreSecondThirdLeast
  | 3 => some .IgnoreLeastThree
  | _ => none

/-- `pub struct IrtEntry(u128)`; the `val` field carries the 128-bit payload
(`val < 2^128` on every value the Rust type can hold). -/
structure IrtEntry where
  val : Nat
deriving DecidableEq

/-- `IrtEntry::new_enabled`: `Self(0b11 | ((vector as u128) << 16))`. -/
def IrtEntry.new_enabled (vector : Nat) : IrtEntry :=
  ⟨0b11 ||| (vector <<< 16)⟩

/-- `IrtEntry::as_raw_u64`: `[self.0 as u64, (self.0 >> 64) as u64]`,
modelled as the pair `(lower, upper)`. -/
def IrtEntry.as_raw_u64 (e : IrtEntry) : Nat × Nat :=
  (e.val % 2 ^ 64, (e.val >>> 64) % 2 ^ 64)

/-- `IrtEntry::source_validation_type`: extracts `(self.0 & (0x3 << 82)) >> 82`
and converts with `SourceValidationType::try_from`; `none` models the
`unwrap` panic branch. -/
def IrtEntry.source_validation_type (e : IrtEntry) : Option SourceValidationType :=
  SourceValidationType.tryFromInt (((e.val &&& (0x3 <<< 82)) >>> 82) % 2 ^ 32)

/-- `IrtEntry::source_id_qualifier`: the source declares
`const SQ_MASK: u128 = 0x3 << 82` — the same mask and shift as `SVT_MASK` —
so the embedded extraction is bit-for-bit the one in the code. -/
def IrtEntry.source_id_qualifier (e : IrtEntry) : Option SourceIdQualifier :=
  SourceIdQualifier.tryFromInt (((e.val &&& (0x3 <<< 82)) >>> 82) % 2 ^ 32)

/-- `IrtEntry::source_identifier`: `((self.0 & (0xFFFF << 64)) >> 64) as u32`. -/
def IrtEntry.source_identifier (e : IrtEntry) : Nat :=
  ((e.val &&& (0xFFFF <<< 64)) >>> 64) % 2 ^ 32

/-- `IrtEntry::destination_id`: `((self.0 & (0xFFFF_FFFF << 32)) >> 32) as u32`. -/
def IrtEntry.destination_id (e : IrtEntry) : Nat :=
  ((e.val &&& (0xFFFFFFFF <<< 32)) >>> 32) % 2 ^ 32

/-- `IrtEntry::vector`: `((self.0 & (0xFF << 16)) >> 16) as u8`. -/
def IrtEntry.vector (e : IrtEntry) : Nat :=
  ((e.val &&& (0xFF <<< 16)) >>> 16) % 2 ^ 8

/-- Bit values of `IrtEntryFlags` from the `bitflags!` block. -/
def IrtEntryFlags.P : Nat := 1 <<< 0

def IrtEntryFlags.FPD : Nat := 1 <<< 1

def IrtEntryFlags.DM : Nat := 1 <<< 2

def IrtEntryFlags.RH : Nat := 1 <<< 3

def IrtEntryFlags.TM : Nat := 1 <<< 4

def IrtEntryFlags.IM : Nat := 1 <<< 15

/-- `IrtEntryFlags::all().bits()`: union of the declared flag bits. -/
def IrtEntryFlags.all : Nat :=
  IrtEntryFlags.P ||| IrtEntryFlags.FPD ||| IrtEntryFlags.DM |||
    IrtEntryFlags.RH ||| IrtEntryFlags.TM ||| IrtEntryFlags.IM

/-- `IrtEntry::flags`:
`IrtEntryFlags::from_bits_truncate((self.0 & 0xFFFF_FFFF) as u32)`, which
keeps exactly the declared flag bits of the lower 32 bits. -/
def IrtEntry.flags (e : IrtEntry) : Nat :=
  ((e.val &&& 0xFFFFFFFF) % 2 ^ 32) &&& IrtEntryFlags.all

/-- Field extraction `(x &&& ((2^n - 1) <<< k)) >>> k` is the `n`-bit field of
`x` at bit `k`. -/
theorem extract_eq (x k n : Nat) :
    (x &&& ((2 ^ n - 1) <<< k)) >>> k = (x >>> k) % 2 ^ n := by
  apply Nat.eq_of_testBit_eq
  intro j
  simp only [Nat.testBit_shiftRight, Nat.testBit_and, Nat.testBit_shiftLeft,
    Nat.testBit_mod_two_pow, Nat.testBit_two_pow_sub_one]
  by_cases hj : j < n
  · have hle : k ≤ k + j := by omega
    have hsub : k + j - k = j := by omega
    simp [hle, hsub, hj, Bool.and_comm]
  · have hsub : k + j - k = j := by omega
    simp [hsub, hj]

/-! ### The interrupt remapping table -/

/-- `ExtendedInterruptMode` from `table.rs`. -/
inductive ExtendedInterruptMode
  | XApic
  | X2Apic
deriving DecidableEq

/-- Modelled from the spec: the `IdAlloc` index allocator (crate `id-alloc`) is
not under `src/`; per the spec it has a fixed capacity, "reserves the lowest
free index", and returns the empty result when no index is free. The bitmap
has one entry per index; `true` means allocated. -/
structure IdAlloc where
  bitmap : List Bool
deriving DecidableEq

/-- Modelled from the spec: `IdAlloc::with_capacity` starts with every index
free. -/
def IdAlloc.with_capacity (capacity : Nat) : IdAlloc :=
  ⟨List.replicate capacity false⟩

/-- Lowest free index of a bitmap, if any. -/
def IdAlloc.firstFree : List Bool → Option Nat
  | [] => none
  | false :: _ => some 0
  | true :: rest => (IdAlloc.firstFree rest).map (· + 1)

/-- Modelled from the spec: `IdAlloc::alloc` reserves and returns the lowest
free index, or returns `none` when every index is taken. -/
def IdAlloc.alloc (a : IdAlloc) : Option Nat × IdAlloc :=
  match IdAlloc.firstFree a.bitmap with
  | none => (none, a)
  | some i => (some i, ⟨a.bitmap.set i true⟩)

/-- `PAGE_SIZE` of the OSTD memory subsystem. -/
def PAGE_SIZE : Nat := 4096

/-- `IntRemappingTable` from `table.rs`. The backing `Segment` is modelled by
its physical base address `paddr` and its bytes `mem`; the
`modification_lock` serializes `set_entry` (see `SetEntryExec.underLock`). -/
structure IntRemappingTable where
  num_entries : Nat
  extended_interrupt_mode : ExtendedInterruptMode
  paddr : Nat
  mem : Nat → Nat
  allocator : IdAlloc

/-- `IntRemappingTable::new`: one freshly allocated (zeroed) page,
`num_entries = NUM_PAGES * PAGE_SIZE / size_of::<u128>()`, x2APIC mode, and
an allocator of that capacity. The page's physical address is supplied by
the frame allocator collaborator. -/
def IntRemappingTable.new (paddr : Nat) : IntRemappingTable :=
  let NUM_PAGES := 1
  let num_entries := NUM_PAGES * PAGE_SIZE / 16
  { num_entries := num_entries
    extended_interrupt_mode := ExtendedInterruptMode.X2Apic
    paddr := paddr
    mem := fun _ => 0
    allocator := IdAlloc.with_capacity num_entries }

/-- `IntRemappingTable::alloc`: delegates to the index allocator; the returned
index is the one wrapped in the `IrtEntryHandle`. -/
def IntRemappingTable.alloc (t : IntRemappingTable) : Option Nat × IntRemappingTable :=
  match t.allocator.alloc with
  | (r, a) => (r, { t with allocator := a })

/-- The ordered 64-bit stores performed by `IntRemappingTable::set_entry`:
`offset = index * size_of::<u128>()`, then a zero to the lower half, the new
upper half at `offset + size_of::<u64>()`, and finally the new lower half. -/
def IntRemappingTable.setEntryWrites (index : Nat) (entry : IrtEntry) : List (Nat × Nat) :=
  [(index * 16, 0), (index * 16 + 8, entry.as_raw_u64.2), (index * 16, entry.as_raw_u64.1)]

/-- Apply one recorded 64-bit store to a byte memory. -/
def applyWrite (m : Nat → Nat) (w : Nat × Nat) : Nat → Nat :=
  writeOnceU64 m w.1 w.2

/-- Apply recorded stores in order. -/
def applyWrites (m : Nat → Nat) (ws : List (Nat × Nat)) : Nat → Nat :=
  ws.foldl applyWrite m

/-- Observable effect of one `set_entry` call: the guard taken on
`modification_lock`, the ordered stores, and the resulting bytes. -/
structure SetEntryExec where
  underLock : Bool
  writes : List (Nat × Nat)
  mem : Nat → Nat

/-- `IntRemappingTable::set_entry`: acquires the modification lock, then
performs the three ordered `write_once` stores of `setEntryWrites`. -/
def IntRemappingTable.set_entry (t : IntRemappingTable) (index : Nat) (entry : IrtEntry) :
    SetEntryExec :=
  { underLock := true
    writes := IntRemappingTable.setEntryWrites index entry
    mem := applyWrites t.mem (IntRemappingTable.setEntryWrites index entry) }

/-- The lower 64 bits of table slot `i` (they hold the present bit, bit 0). -/
def slotLower (m : Nat → Nat) (i : Nat) : Nat := readU64 m (i * 16)

/-- The upper 64 bits of table slot `i`. -/
def slotUpper (m : Nat → Nat) (i : Nat) : Nat := readU64 m (i * 16 + 8)

/-- `u16::trailing_zeros`, unrolled over at most 16 bits; `16` for zero. -/
def trailingZerosAux : Nat → Nat → Nat
  | _, 0 => 0
  | n, fuel + 1 => if n % 2 = 1 then 0 else trailingZerosAux (n / 2) fuel + 1

/-- `u16::trailing_zeros` of `num_entries`. -/
def trailing_zeros16 (n : Nat) : Nat :=
  trailingZerosAux (n % 2 ^ 16) 16

/-- `u16::is_power_of_two`. -/
def is_power_of_two16 (n : Nat) : Bool :=
  decide (0 < n) && decide (n &&& (n - 1) = 0)

/-- Rust `checked_sub`. -/
def checkedSub (a b : Nat) : Option Nat :=
  if b ≤ a then some (a - b) else none

/-- `IntRemappingTable::encode`: base address, EIME at bit 11, size code in
bits 3:0. `none` models the `assert!`/`unwrap` panic paths. -/
def IntRemappingTable.encode (t : IntRemappingTable) : Option Nat :=
  let eime : Nat :=
    match t.extended_interrupt_mode with
    | ExtendedInterruptMode.XApic => 0
    | ExtendedInterruptMode.X2Apic => 1 <<< 11
  if is_power_of_two16 t.num_entries then
    match checkedSub (trailing_zeros16 t.num_entries) 1 with
    | none => none
    | some size =>
      if size ≤ 15 then some ((t.paddr ||| eime) ||| size) else none
  else
    none

/-! ### The x2APIC local controller -/

/-- The model-specific registers touched by `x2apic.rs`. -/
inductive Msr
  | APIC_BASE
  | X2APIC_APICID
  | X2APIC_VERSION
  | X2APIC_EOI
  | X2APIC_ESR
  | X2APIC_ICR
  | X2APIC_SIVR
  | X2APIC_INIT_COUNT
  | X2APIC_CUR_COUNT
  | X2APIC_DIV_CONF
  | X2APIC_LVT_TIMER
deriving DecidableEq

/-- One hardware register access: an `rdmsr` returning `v`, or a `wrmsr` of
`v`. -/
inductive MsrAccess
  | rd (m : Msr) (v : Nat)
  | wr (m : Msr) (v : Nat)
deriving DecidableEq

/-- Whether an access is a `wrmsr`. -/
def MsrAccess.isWr : MsrAccess → Bool
  | .rd _ _ => false
  | .wr _ _ => true

/-- `pub(super) struct X2Apic { _private: () }`. -/
structure X2Apic where
  private_unit : Unit

/-- `X2Apic::has_x2apic`: the CPU feature query for `IsaExtensions::X2APIC`
(a collaborator); its answer is the model parameter. -/
def X2Apic.has_x2apic (cpuHasX2Apic : Bool) : Bool :=
  cpuHasX2Apic

/-- `X2Apic::new`: returns `None` when the feature query fails, else the
controller; either way it touches no MSR, which the empty trace records. -/
def X2Apic.new (cpuHasX2Apic : Bool) : Option X2Apic × List MsrAccess :=
  if !X2Apic.has_x2apic cpuHasX2Apic then (none, [])
  else (some ⟨()⟩, [])

/-- The polling loop of `X2Apic::send_ipi`, driven by an environment oracle
`env` giving the value every register would read at loop iteration `k`.
Iteration: read ICR; stop if its bit 12 is clear; otherwise read ESR and stop
if it is nonzero; otherwise continue. `fuel` bounds the unrolling only so the
model is total; the code's loop has no such bound. Returns the iteration at
which the loop exited (or `none` if `fuel` ran out) and the reads performed. -/
def ipiLoop (env : Nat → Msr → Nat) : Nat → Nat → Option Nat × List MsrAccess
  | _, 0 => (none, [])
  | k, fuel + 1 =>
    let v := env k Msr.X2APIC_ICR
    if (v >>> 12) &&& 0x1 = 0 then
      (some k, [MsrAccess.rd Msr.X2APIC_ICR v])
    else
      let e := env k Msr.X2APIC_ESR
      if 0 < e then
        (some k, [MsrAccess.rd Msr.X2APIC_ICR v, MsrAccess.rd Msr.X2APIC_ESR e])
      else
        ((ipiLoop env (k + 1) fuel).1,
          MsrAccess.rd Msr.X2APIC_ICR v :: MsrAccess.rd Msr.X2APIC_ESR e ::
            (ipiLoop env (k + 1) fuel).2)

/-- Observable effect of one `send_ipi` call. -/
structure SendIpiExec where
  irqDisabled : Bool
  exitStep : Option Nat
  trace : List MsrAccess

/-- `X2Apic::send_ipi`: under `disable_local()`, write 0 to ESR, write the
caller's command to ICR, then poll as `ipiLoop` does. -/
def X2Apic.send_ipi (env : Nat → Msr → Nat) (icr : Nat) (fuel : Nat) : SendIpiExec :=
  { irqDisabled := true
    exitStep := (ipiLoop env 0 fuel).1
    trace := MsrAccess.wr Msr.X2APIC_ESR 0 :: MsrAccess.wr Msr.X2APIC_ICR icr ::
      (ipiLoop env 0 fuel).2 }

/-! ### Theorems: the IRTE codec -/

theorem svt_tryFromInt_total : ∀ r, r < 4 → (SourceValidationType.tryFromInt r).isSome = true := by
  decide

theorem sq_tryFromInt_total : ∀ r, r < 4 → (SourceIdQualifier.tryFromInt r).isSome = true := by
  decide

/-- The raw 2-bit field both accessors extract is always below 4. -/
theorem svt_field_lt (e : IrtEntry) : ((e.val &&& (0x3 <<< 82)) >>> 82) % 2 ^ 32 < 4 := by
  have h3 : (0x3 : Nat) = 2 ^ 2 - 1 := by norm_num
  have hx : (e.val &&& (0x3 <<< 82)) >>> 82 = (e.val >>> 82) % 2 ^ 2 := by
    rw [h3]; exact extract_eq e.val 82 2
  have hlt : (e.val >>> 82) % 2 ^ 2 < 4 := Nat.mod_lt _ (by norm_num)
  rw [hx, Nat.mod_eq_of_lt (lt_trans hlt (by norm_num))]
  exact hlt

/-- C9: for every 128-bit entry value the checked numeric-to-tag conversions
inside `source_validation_type()` and `source_id_qualifier()` succeed — the
extracted 2-bit value always maps to an enumerated tag, so the panic branch
of each `unwrap` is unreachable and both accessors are total. -/
theorem irte_accessors_total (e : IrtEntry) :
    (IrtEntry.source_validation_type e).isSome = true ∧
    (IrtEntry.source_id_qualifier e).isSome = true :=
  ⟨svt_tryFromInt_total _ (svt_field_lt e), sq_tryFromInt_total _ (svt_field_lt e)⟩

theorem irte_accessors_total_witness :
    (IrtEntry.source_validation_type ⟨0⟩).isSome = true ∧
    (IrtEntry.source_id_qualifier ⟨0⟩).isSome = true :=
  irte_accessors_total ⟨0⟩

/-- C4: the two 2-bit accessors do NOT read disjoint fields. Both extract
bits 83:82 (`SQ_MASK` in the source is `0x3 << 82`, identical to `SVT_MASK`),
so setting only the source-validation-type bits (bit 82) changes the result
of `source_id_qualifier()`, while setting the hardware's actual source-id-
qualifier bits (bits 81:80) leaves it unchanged. -/
theorem sq_svt_fields_overlap :
    (∀ e : IrtEntry, IrtEntry.source_id_qualifier e =
      SourceIdQualifier.tryFromInt (((e.val &&& (0x3 <<< 82)) >>> 82) % 2 ^ 32)) ∧
    IrtEntry.source_id_qualifier ⟨0⟩ = some SourceIdQualifier.All ∧
    IrtEntry.source_id_qualifier ⟨2 ^ 82⟩ = some SourceIdQualifier.IgnoreThirdLeast ∧
    IrtEntry.source_validation_type ⟨2 ^ 82⟩ = some SourceValidationType.RequesterId ∧
    IrtEntry.source_id_qualifier ⟨2 ^ 80⟩ = some SourceIdQualifier.All :=
  ⟨fun _ => rfl, by decide, by decide, by decide, by decide⟩

/-- C3 counterexample: the claim says `new_enabled` leaves fault processing
enabled, i.e. the FPD (Fault Processing Disable, 1 = disabled) flag clear;
but `new_enabled(0)` sets FPD (its low bits are `0b11` = P | FPD). -/
theorem new_enabled_fpd_counterexample :
    ¬(IrtEntry.flags (IrtEntry.new_enabled 0) &&& IrtEntryFlags.FPD = 0) := by
  decide

/-- C3 amended: for every vector `v` in 0..=255, `new_enabled(v)` has
`vector() == v`, the present flag set, no source validation (`Disable`),
physical destination mode (DM clear), edge trigger (TM clear), remapped mode
(IM clear), redirection hint clear, destination id zero — and fault
processing *disabled* (FPD set), per the constructor's own documentation
`FPD = 1, P = 1`. -/
theorem new_enabled_defaults :
    ∀ v, v < 256 →
      IrtEntry.vector (IrtEntry.new_enabled v) = v ∧
      IrtEntry.flags (IrtEntry.new_enabled v) &&& IrtEntryFlags.P ≠ 0 ∧
      IrtEntry.source_validation_type (IrtEntry.new_enabled v) =
        some SourceValidationType.Disable ∧
      IrtEntry.flags (IrtEntry.new_enabled v) &&& IrtEntryFlags.DM = 0 ∧
      IrtEntry.flags (IrtEntry.new_enabled v) &&& IrtEntryFlags.TM = 0 ∧
      IrtEntry.flags (IrtEntry.new_enabled v) &&& IrtEntryFlags.IM = 0 ∧
      IrtEntry.flags (IrtEntry.new_enabled v) &&& IrtEntryFlags.RH = 0 ∧
      IrtEntry.destination_id (IrtEntry.new_enabled v) = 0 ∧
      IrtEntry.flags (IrtEntry.new_enabled v) &&& IrtEntryFlags.FPD ≠ 0 := by
  set_option maxRecDepth 4000 in decide

theorem new_enabled_defaults_witness :
    32 < 256 ∧ IrtEntry.vector (IrtEntry.new_enabled 32) = 32 :=
  ⟨by decide, (new_enabled_defaults 32 (by decide)).1⟩

/-! ### Theorems: the set_entry write protocol -/

/-- C1: `set_entry(i, e)` performs, under the table's modification lock,
exactly the three ordered 64-bit writes — zero to the slot's lower half,
then `e`'s upper half, then `e`'s lower half — and after each of the three
writes, whenever the present bit (bit 0 of the slot's lower 64 bits) is set,
the slot's upper 64 bits equal `e`'s upper 64 bits. -/
theorem set_entry_write_protocol (t : IntRemappingTable) (i : Nat) (e : IrtEntry) :
    (t.set_entry i e).underLock = true ∧
    (t.set_entry i e).writes =
      [(i * 16, 0), (i * 16 + 8, e.as_raw_u64.2), (i * 16, e.as_raw_u64.1)] ∧
    (∀ k, 1 ≤ k →
      slotLower (applyWrites t.mem ((t.set_entry i e).writes.take k)) i % 2 = 1 →
      slotUpper (applyWrites t.mem ((t.set_entry i e).writes.take k)) i = e.as_raw_u64.2) := by
  refine ⟨rfl, rfl, ?_⟩
  intro k hk
  have hm1 : slotLower (applyWrites t.mem
      ((t.set_entry i e).writes.take 1)) i = 0 := by
    show slotLower (writeOnceU64 t.mem (i * 16) 0) i = 0
    show readU64 (writeOnceU64 t.mem (i * 16) 0) (i * 16) = 0
    rw [readU64_writeOnceU64]
    exact Nat.zero_mod _
  have hm2 : slotLower (applyWrites t.mem
      ((t.set_entry i e).writes.take 2)) i = 0 := by
    show readU64 (writeOnceU64 (writeOnceU64 t.mem (i * 16) 0) (i * 16 + 8) e.as_raw_u64.2)
      (i * 16) = 0
    rw [readU64_frame _ _ _ _ (Or.inr (by omega))]
    exact hm1
  match k, hk with
  | 1, _ =>
    intro hpres
    rw [hm1] at hpres
    omega
  | 2, _ =>
    intro hpres
    rw [hm2] at hpres
    omega
  | (k + 3), _ =>
    intro _
    have htake : ((t.set_entry i e).writes.take (k + 3)) = (t.set_entry i e).writes := by
      simp [IntRemappingTable.set_entry, IntRemappingTable.setEntryWrites]
    rw [htake]
    show readU64 (writeOnceU64 (writeOnceU64 (writeOnceU64 t.mem (i * 16) 0)
      (i * 16 + 8) e.as_raw_u64.2) (i * 16) e.as_raw_u64.1) (i * 16 + 8) = e.as_raw_u64.2
    rw [readU64_frame _ _ _ _ (Or.inl (by omega)), readU64_writeOnceU64]
    show (e.val >>> 64) % 2 ^ 64 % 2 ^ 64 = (e.val >>> 64) % 2 ^ 64
    exact Nat.mod_mod_of_dvd _ dvd_rfl

theorem set_entry_write_protocol_witness :
    1 ≤ 3 ∧
    slotLower (applyWrites (IntRemappingTable.new 0).mem
      (((IntRemappingTable.new 0).set_entry 0 (IrtEntry.new_enabled 32)).writes.take 3)) 0 % 2
      = 1 ∧
    slotUpper (applyWrites (IntRemappingTable.new 0).mem
      (((IntRemappingTable.new 0).set_entry 0 (IrtEntry.new_enabled 32)).writes.take 3)) 0
      = (IrtEntry.new_enabled 32).as_raw_u64.2 :=
  ⟨by decide, by decide,
    (set_entry_write_protocol (IntRemappingTable.new 0) 0 (IrtEntry.new_enabled 32)).2.2 3
      (by decide) (by decide)⟩

/-- Pointwise frame property of a single 64-bit store. -/
theorem writeOnceU64_frame_pt (m : Nat → Nat) (off v a : Nat)
    (h : a < off ∨ off + 8 ≤ a) : writeOnceU64 m off v a = m a :=
  writeBytes_frame 8 m off v a h

/-- C2: after `set_entry(i, e)` completes, the 128-bit value reconstructed
from the table's bytes at index `i` — lower 64 bits at byte offset `i*16`,
upper 64 bits at byte offset `i*16 + 8` — equals `e`'s raw 128 bits. -/
theorem set_entry_readback (t : IntRemappingTable) (i : Nat) (e : IrtEntry)
    (he : e.val < 2 ^ 128) :
    readU64 ((t.set_entry i e).mem) (i * 16) +
      readU64 ((t.set_entry i e).mem) (i * 16 + 8) * 2 ^ 64 = e.val := by
  show readU64 (writeOnceU64 (writeOnceU64 (writeOnceU64 t.mem (i * 16) 0)
      (i * 16 + 8) e.as_raw_u64.2) (i * 16) e.as_raw_u64.1) (i * 16) +
    readU64 (writeOnceU64 (writeOnceU64 (writeOnceU64 t.mem (i * 16) 0)
      (i * 16 + 8) e.as_raw_u64.2) (i * 16) e.as_raw_u64.1) (i * 16 + 8) * 2 ^ 64 = e.val
  rw [readU64_writeOnceU64, readU64_frame _ _ _ _ (Or.inl (by omega)), readU64_writeOnceU64]
  show e.val % 2 ^ 64 % 2 ^ 64 + (e.val >>> 64) % 2 ^ 64 % 2 ^ 64 * 2 ^ 64 = e.val
  rw [Nat.shiftRight_eq_div_pow]
  have h64 : (2 : Nat) ^ 64 = 18446744073709551616 := by norm_num
  have h128 : (2 : Nat) ^ 128 = 340282366920938463463374607431768211456 := by norm_num
  rw [h64] at *
  rw [h128] at he
  omega

theorem set_entry_readback_witness :
    (IrtEntry.new_enabled 32).val < 2 ^ 128 ∧
    readU64 (((IntRemappingTable.new 0).set_entry 0 (IrtEntry.new_enabled 32)).mem) (0 * 16) +
      readU64 (((IntRemappingTable.new 0).set_entry 0 (IrtEntry.new_enabled 32)).mem)
        (0 * 16 + 8) * 2 ^ 64 = (IrtEntry.new_enabled 32).val :=
  ⟨by decide,
    set_entry_readback (IntRemappingTable.new 0) 0 (IrtEntry.new_enabled 32) (by decide)⟩

/-- C10: `set_entry(i, e)` modifies only the 16 bytes of the backing memory
at byte offsets `i*16 .. i*16 + 15`; every byte outside that slot is
unchanged. -/
theorem set_entry_frame (t : IntRemappingTable) (i : Nat) (e : IrtEntry) (a : Nat)
    (h : a < i * 16 ∨ i * 16 + 16 ≤ a) :
    (t.set_entry i e).mem a = t.mem a := by
  show writeOnceU64 (writeOnceU64 (writeOnceU64 t.mem (i * 16) 0)
      (i * 16 + 8) e.as_raw_u64.2) (i * 16) e.as_raw_u64.1 a = t.mem a
  rw [writeOnceU64_frame_pt _ _ _ _ (by omega), writeOnceU64_frame_pt _ _ _ _ (by omega),
    writeOnceU64_frame_pt _ _ _ _ (by omega)]

theorem set_entry_frame_witness :
    (16 < 1 * 16 ∨ 1 * 16 + 16 ≤ 16 + 16) ∧
    ((IntRemappingTable.new 0).set_entry 1 (IrtEntry.new_enabled 32)).mem 32 =
      (IntRemappingTable.new 0).mem 32 :=
  ⟨Or.inr (by omega),
    set_entry_frame (IntRemappingTable.new 0) 1 (IrtEntry.new_enabled 32) 32
      (Or.inr (by omega))⟩

/-! ### Theorems: the table-base register encoding -/

theorem trailingZerosAux_pow (k : Nat) :
    ∀ fuel, k < fuel → trailingZerosAux (2 ^ k) fuel = k := by
  induction k with
  | zero =>
    intro fuel hf
    match fuel, hf with
    | f + 1, _ => simp [trailingZerosAux]
  | succ k ih =>
    intro fuel hf
    match fuel, hf with
    | f + 1, hf =>
      have hmod : 2 ^ (k + 1) % 2 = 0 := by
        rw [pow_succ, Nat.mul_mod_left]
      have hdiv : 2 ^ (k + 1) / 2 = 2 ^ k := by
        rw [pow_succ, Nat.mul_div_cancel _ (by norm_num)]
      show (if 2 ^ (k + 1) % 2 = 1 then 0 else trailingZerosAux (2 ^ (k + 1) / 2) f + 1) = k + 1
      rw [hmod, hdiv, ih f (by omega)]
      simp

theorem trailing_zeros16_pow (k : Nat) (hk : k ≤ 15) : trailing_zeros16 (2 ^ k) = k := by
  have hlt : (2 : Nat) ^ k < 2 ^ 16 := Nat.pow_lt_pow_right (by norm_num) (by omega)
  rw [trailing_zeros16, Nat.mod_eq_of_lt hlt]
  exact trailingZerosAux_pow k 16 (by omega)

theorem is_power_of_two16_pow (k : Nat) : is_power_of_two16 (2 ^ k) = true := by
  rw [is_power_of_two16]
  have h1 : (0 : Nat) < 2 ^ k := Nat.pos_pow_of_pos k (by norm_num)
  have h2 : 2 ^ k &&& (2 ^ k - 1) = 0 := by
    rw [Nat.and_pow_two_sub_one_eq_mod, Nat.mod_self]
  simp [h1, h2]

/-- C5: for a table whose entry count is `2^(s+1)` (any power of two a `u16`
can hold; the one-page construction gives 256 = 2^8) and whose backing page
is 4096-byte aligned, `encode()` succeeds and produces a value whose bits
3:0 hold the size code `s` with `2^(s+1) = entries`, whose bit 11 is set
exactly in extended (x2APIC) destination mode, and whose remaining bits
(11:4 are zero filled, 63:12 the page number) carry the physical base
address of the backing memory. -/
theorem encode_fields (t : IntRemappingTable) (s : Nat)
    (h1 : t.num_entries = 2 ^ (s + 1)) (h2 : s ≤ 14) (h3 : t.paddr % 4096 = 0) :
    ∃ v, t.encode = some v ∧
      v % 16 = s ∧
      2 ^ (v % 16 + 1) = t.num_entries ∧
      (v.testBit 11 = true ↔ t.extended_interrupt_mode = ExtendedInterruptMode.X2Apic) ∧
      v >>> 12 = t.paddr >>> 12 ∧
      v = t.paddr +
        (if t.extended_interrupt_mode = ExtendedInterruptMode.X2Apic then 2 ^ 11 else 0)
        + s := by
  have hsz : trailing_zeros16 t.num_entries = s + 1 := by
    rw [h1]; exact trailing_zeros16_pow (s + 1) (by omega)
  have hpw : is_power_of_two16 t.num_entries = true := by
    rw [h1]; exact is_power_of_two16_pow (s + 1)
  have hq : t.paddr = 2 ^ 12 * (t.paddr / 4096) := by
    have := Nat.div_add_mod t.paddr 4096
    omega
  set q := t.paddr / 4096 with hqdef
  have hint : ∀ eime : Nat, eime < 4096 → eime % 16 = 0 →
      (t.paddr ||| eime) ||| s = t.paddr + eime + s := by
    intro eime he1 he2
    have hfirst : t.paddr ||| eime = t.paddr + eime := by
      rw [hq, ← Nat.mul_add_lt_is_or (by omega) q]
    rw [hfirst]
    have hsplit : t.paddr + eime = 2 ^ 4 * (2 ^ 8 * q + eime / 16) := by
      rw [hq]
      have : eime / 16 * 16 = eime := by omega
      ring_nf
      omega
    rw [hsplit, ← Nat.mul_add_lt_is_or (by omega) (2 ^ 8 * q + eime / 16)]
  cases hmode : t.extended_interrupt_mode with
  | XApic =>
    refine ⟨t.paddr + 0 + s, ?_, by omega, ?_, ?_, ?_, by simp [hmode]⟩
    · show IntRemappingTable.encode t = some (t.paddr + 0 + s)
      rw [IntRemappingTable.encode]
      simp only [hmode, hpw, hsz, if_true]
      have hcs : checkedSub (s + 1) 1 = some s := by
        rw [checkedSub]; simp
      rw [hcs]
      simp only [if_pos (by omega : s ≤ 15)]
      have := hint 0 (by norm_num) (by norm_num)
      simp only [Nat.or_zero] at this ⊢
      rw [this]
    · have hv : (t.paddr + 0 + s) % 16 = s := by omega
      rw [hv, ← h1]
    · constructor
      · intro hbit
        exfalso
        rw [Nat.testBit_to_div_mod] at hbit
        have : (t.paddr + 0 + s) / 2 ^ 11 % 2 = 1 := by simpa using hbit
        have h2048 : (2 : Nat) ^ 11 = 2048 := by norm_num
        rw [h2048] at this
        omega
      · intro hx; cases hx
    · rw [Nat.shiftRight_eq_div_pow, Nat.shiftRight_eq_div_pow]
      have h4096 : (2 : Nat) ^ 12 = 4096 := by norm_num
      rw [h4096]
      omega
  | X2Apic =>
    refine ⟨t.paddr + 2 ^ 11 + s, ?_, by omega, ?_, ?_, ?_, by simp [hmode]⟩
    · show IntRemappingTable.encode t = some (t.paddr + 2 ^ 11 + s)
      rw [IntRemappingTable.encode]
      simp only [hmode, hpw, hsz, if_true]
      have hcs : checkedSub (s + 1) 1 = some s := by
        rw [checkedSub]; simp
      rw [hcs]
      simp only [if_pos (by omega : s ≤ 15)]
      have heime : (1 : Nat) <<< 11 = 2 ^ 11 := by decide
      rw [heime]
      have := hint (2 ^ 11) (by norm_num) (by norm_num)
      rw [this]
    · have hv : (t.paddr + 2 ^ 11 + s) % 16 = s := by
        have h2048 : (2 : Nat) ^ 11 = 2048 := by norm_num
        rw [h2048]; omega
      rw [hv, ← h1]
    · constructor
      · intro _; rfl
      · intro _
        rw [Nat.testBit_to_div_mod]
        have h2048 : (2 : Nat) ^ 11 = 2048 := by norm_num
        rw [h2048]
        have : (t.paddr + 2048 + s) / 2048 % 2 = 1 := by omega
        simpa using this
    · rw [Nat.shiftRight_eq_div_pow, Nat.shiftRight_eq_div_pow]
      have h4096 : (2 : Nat) ^ 12 = 4096 := by norm_num
      have h2048 : (2 : Nat) ^ 11 = 2048 := by norm_num
      rw [h4096, h2048]
      omega

theorem encode_fields_witness :
    ((IntRemappingTable.new 4096).num_entries = 2 ^ (7 + 1) ∧ 7 ≤ 14 ∧
      (IntRemappingTable.new 4096).paddr % 4096 = 0) ∧
    (∃ v, (IntRemappingTable.new 4096).encode = some v ∧ v % 16 = 7 ∧
      2 ^ (v % 16 + 1) = (IntRemappingTable.new 4096).num_entries ∧
      (v.testBit 11 = true ↔
        (IntRemappingTable.new 4096).extended_interrupt_mode = ExtendedInterruptMode.X2Apic) ∧
      v >>> 12 = (IntRemappingTable.new 4096).paddr >>> 12 ∧
      v = (IntRemappingTable.new 4096).paddr +
        (if (IntRemappingTable.new 4096).extended_interrupt_mode =
          ExtendedInterruptMode.X2Apic then 2 ^ 11 else 0) + 7) :=
  ⟨⟨by decide, by decide, by decide⟩,
    encode_fields (IntRemappingTable.new 4096) 7 (by decide) (by decide) (by decide)⟩

/-! ### Theorems: index allocation -/

/-- Table state after `k` successive `alloc()` calls. -/
def allocIter (t : IntRemappingTable) : Nat → IntRemappingTable
  | 0 => t
  | k + 1 => ((allocIter t k).alloc).2

theorem firstFree_replicate (k : Nat) :
    ∀ m, IdAlloc.firstFree (List.replicate k true ++ List.replicate m false) =
      if m = 0 then none else some k := by
  induction k with
  | zero =>
    intro m
    cases m with
    | zero => rfl
    | succ m => rfl
  | succ k ih =>
    intro m
    show (IdAlloc.firstFree (List.replicate k true ++ List.replicate m false)).map (· + 1) =
      if m = 0 then none else some (k + 1)
    rw [ih m]
    cases m with
    | zero => rfl
    | succ m => rfl

theorem set_replicate (k : Nat) :
    ∀ m, (List.replicate k true ++ List.replicate (m + 1) false).set k true =
      List.replicate (k + 1) true ++ List.replicate m false := by
  induction k with
  | zero =>
    intro m
    rfl
  | succ k ih =>
    intro m
    show true :: (List.replicate k true ++ List.replicate (m + 1) false).set k true =
      true :: (List.replicate (k + 1) true ++ List.replicate m false)
    rw [ih m]

theorem allocIter_bitmap (paddr : Nat) :
    ∀ k, k ≤ 256 →
      (allocIter (IntRemappingTable.new paddr) k).allocator.bitmap =
        List.replicate k true ++ List.replicate (256 - k) false := by
  intro k
  induction k with
  | zero => intro _; rfl
  | succ k ih =>
    intro hk
    have hbm := ih (by omega)
    show ((allocIter (IntRemappingTable.new paddr) k).alloc).2.allocator.bitmap = _
    rw [IntRemappingTable.alloc]
    have h256 : 256 - k = (256 - (k + 1)) + 1 := by omega
    rw [IdAlloc.alloc, hbm, h256, firstFree_replicate]
    simp only [Nat.add_one_ne_zero, if_false]
    show (List.replicate k true ++ List.replicate ((256 - (k + 1)) + 1) false).set k true = _
    rw [set_replicate]

theorem allocIter_result (paddr : Nat) (k : Nat) (hk : k ≤ 256) :
    ((allocIter (IntRemappingTable.new paddr) k).alloc).1 =
      if k = 256 then none else some k := by
  rw [IntRemappingTable.alloc, IdAlloc.alloc, allocIter_bitmap paddr k hk,
    firstFree_replicate]
  by_cases h : k = 256
  · subst h
    simp
  · have : 256 - k ≠ 0 := by omega
    simp only [this, if_false, h]

/-- C6: on a freshly constructed table of capacity 256, the first `alloc()`
returns index 0 and the second returns index 1; the first 256 calls return
pairwise distinct indices (the lowest free index each time); and the 257th
call returns `None`. -/
theorem alloc_sequential (paddr : Nat) :
    ((IntRemappingTable.new paddr).alloc).1 = some 0 ∧
    (((IntRemappingTable.new paddr).alloc).2.alloc).1 = some 1 ∧
    (∀ k, k < 256 → ((allocIter (IntRemappingTable.new paddr) k).alloc).1 = some k) ∧
    (∀ j k, j < 256 → k < 256 →
      ((allocIter (IntRemappingTable.new paddr) j).alloc).1 =
        ((allocIter (IntRemappingTable.new paddr) k).alloc).1 → j = k) ∧
    ((allocIter (IntRemappingTable.new paddr) 256).alloc).1 = none := by
  have hres : ∀ k, k < 256 →
      ((allocIter (IntRemappingTable.new paddr) k).alloc).1 = some k := by
    intro k hk
    rw [allocIter_result paddr k (by omega)]
    simp [Nat.ne_of_lt hk]
  refine ⟨?_, ?_, hres, ?_, ?_⟩
  · exact hres 0 (by omega)
  · exact hres 1 (by omega)
  · intro j k hj hk hjk
    rw [hres j hj, hres k hk] at hjk
    exact Option.some.inj hjk
  · rw [allocIter_result paddr 256 (by omega)]
    simp

theorem alloc_sequential_witness :
    ((IntRemappingTable.new 4096).alloc).1 = some 0 ∧
    (((IntRemappingTable.new 4096).alloc).2.alloc).1 = some 1 ∧
    ((allocIter (IntRemappingTable.new 4096) 256).alloc).1 = none :=
  ⟨(alloc_sequential 4096).1, (alloc_sequential 4096).2.1,
    (alloc_sequential 4096).2.2.2.2⟩

/-! ### Theorems: the x2APIC controller -/

/-- C7: `X2Apic::new()` returns `None` exactly when the CPU feature query
reports x2APIC unsupported, and it performs no MSR access at all (in
particular none on the `None` path). -/
theorem x2apic_new_none_iff (b : Bool) :
    ((X2Apic.new b).1 = none ↔ X2Apic.has_x2apic b = false) ∧
    (X2Apic.new b).2 = [] := by
  cases b <;> simp [X2Apic.new, X2Apic.has_x2apic]

theorem x2apic_new_none_iff_witness :
    (X2Apic.new false).1 = none ∧ (X2Apic.new false).2 = [] :=
  ⟨(x2apic_new_none_iff false).1.mpr rfl, (x2apic_new_none_iff false).2⟩

theorem ipiLoop_no_writes (env : Nat → Msr → Nat) :
    ∀ fuel k, ((ipiLoop env k fuel).2).filter MsrAccess.isWr = [] := by
  intro fuel
  induction fuel with
  | zero => intro k; rfl
  | succ fuel ih =>
    intro k
    rw [ipiLoop]
    by_cases h1 : (env k Msr.X2APIC_ICR >>> 12) &&& 0x1 = 0
    · simp only [h1, if_true]
      rfl
    · simp only [h1, if_false]
      by_cases h2 : 0 < env k Msr.X2APIC_ESR
      · simp only [h2, if_true]
        rfl
      · simp only [h2, if_false]
        show (MsrAccess.rd Msr.X2APIC_ICR (env k Msr.X2APIC_ICR) ::
          MsrAccess.rd Msr.X2APIC_ESR (env k Msr.X2APIC_ESR) ::
          (ipiLoop env (k + 1) fuel).2).filter MsrAccess.isWr = []
        rw [List.filter_cons, List.filter_cons, ih (k + 1)]
        rfl

theorem ipiLoop_exit (env : Nat → Msr → Nat) :
    ∀ fuel s k, (ipiLoop env s fuel).1 = some k →
      s ≤ k ∧
      ((env k Msr.X2APIC_ICR >>> 12) &&& 0x1 = 0 ∨ 0 < env k Msr.X2APIC_ESR) ∧
      (∀ j, s ≤ j → j < k →
        (env j Msr.X2APIC_ICR >>> 12) &&& 0x1 ≠ 0 ∧ env j Msr.X2APIC_ESR = 0) := by
  intro fuel
  induction fuel with
  | zero => intro s k h; cases h
  | succ fuel ih =>
    intro s k h
    rw [ipiLoop] at h
    by_cases h1 : (env s Msr.X2APIC_ICR >>> 12) &&& 0x1 = 0
    · simp only [h1, if_true] at h
      have hk : s = k := Option.some.inj h
      subst hk
      exact ⟨Nat.le_refl s, Or.inl h1, fun j hj1 hj2 => absurd hj1 (by omega)⟩
    · simp only [h1, if_false] at h
      by_cases h2 : 0 < env s Msr.X2APIC_ESR
      · simp only [h2, if_true] at h
        have hk : s = k := Option.some.inj h
        subst hk
        exact ⟨Nat.le_refl s, Or.inr h2, fun j hj1 hj2 => absurd hj1 (by omega)⟩
      · simp only [h2, if_false] at h
        have hrec := ih (s + 1) k h
        refine ⟨by omega, hrec.2.1, ?_⟩
        intro j hj1 hj2
        rcases Nat.eq_or_lt_of_le hj1 with hj | hj
        · subst hj
          exact ⟨h1, by omega⟩
        · exact hrec.2.2 j (by omega) hj2

theorem ipiLoop_never_exits (env : Nat → Msr → Nat)
    (hcont : ∀ j, (env j Msr.X2APIC_ICR >>> 12) &&& 0x1 ≠ 0 ∧ env j Msr.X2APIC_ESR = 0) :
    ∀ fuel s, (ipiLoop env s fuel).1 = none := by
  intro fuel
  induction fuel with
  | zero => intro s; rfl
  | succ fuel ih =>
    intro s
    rw [ipiLoop]
    have h1 := (hcont s).1
    have h2 := (hcont s).2
    simp only [h1, if_false, h2]
    simpa using ih (s + 1)

/-- C8: `send_ipi(command)` runs under a local-interrupt-disabled guard; its
first two register writes are zero to the error-status register and then the
command to the interrupt-command register; no other register write occurs in
the whole sequence; the poll loop exits at step `k` only when the ICR value
read there has its delivery-pending bit (bit 12) clear or the ESR reads
nonzero — every earlier step saw the pending bit set and a zero ESR; and if
the pending bit never clears and ESR stays zero, the loop never exits, no
matter the unrolling bound (there is no timeout). -/
theorem send_ipi_protocol (env : Nat → Msr → Nat) (icr fuel : Nat) :
    (X2Apic.send_ipi env icr fuel).irqDisabled = true ∧
    (X2Apic.send_ipi env icr fuel).trace.take 2 =
      [MsrAccess.wr Msr.X2APIC_ESR 0, MsrAccess.wr Msr.X2APIC_ICR icr] ∧
    (X2Apic.send_ipi env icr fuel).trace.filter MsrAccess.isWr =
      [MsrAccess.wr Msr.X2APIC_ESR 0, MsrAccess.wr Msr.X2APIC_ICR icr] ∧
    (∀ k, (X2Apic.send_ipi env icr fuel).exitStep = some k →
      ((env k Msr.X2APIC_ICR >>> 12) &&& 0x1 = 0 ∨ 0 < env k Msr.X2APIC_ESR) ∧
      (∀ j, j < k →
        (env j Msr.X2APIC_ICR >>> 12) &&& 0x1 ≠ 0 ∧ env j Msr.X2APIC_ESR = 0)) ∧
    ((∀ j, (env j Msr.X2APIC_ICR >>> 12) &&& 0x1 ≠ 0 ∧ env j Msr.X2APIC_ESR = 0) →
      (X2Apic.send_ipi env icr fuel).exitStep = none) := by
  refine ⟨rfl, rfl, ?_, ?_, ?_⟩
  · show (MsrAccess.wr Msr.X2APIC_ESR 0 :: MsrAccess.wr Msr.X2APIC_ICR icr ::
      (ipiLoop env 0 fuel).2).filter MsrAccess.isWr = _
    rw [List.filter_cons, List.filter_cons, ipiLoop_no_writes env fuel 0]
    rfl
  · intro k hk
    have h := ipiLoop_exit env fuel 0 k hk
    exact ⟨h.2.1, fun j hj => h.2.2 j (Nat.zero_le j) hj⟩
  · intro hcont
    exact ipiLoop_never_exits env hcont fuel 0

/-- A hardware environment whose ICR always reads 0: the pending bit is clear
immediately. -/
def envIdle : Nat → Msr → Nat := fun _ _ => 0

theorem send_ipi_protocol_witness :
    (X2Apic.send_ipi envIdle 5 9).irqDisabled = true ∧
    (X2Apic.send_ipi envIdle 5 9).exitStep = some 0 ∧
    ((envIdle 0 Msr.X2APIC_ICR >>> 12) &&& 0x1 = 0 ∨ 0 < envIdle 0 Msr.X2APIC_ESR) :=
  ⟨(send_ipi_protocol envIdle 5 9).1, rfl,
    ((send_ipi_protocol envIdle 5 9).2.2.2.1 0 rfl).1⟩
